import Mathlib

/-!
Verification of the local-mean rank filter (`skimage/rank/rank.py`).

The repository source under verification is the Python dispatch function
`mean` in `src/skimage/rank/rank.py`, which normalizes inputs and
dispatches on the image dtype to a native 8-bit engine (`_crank8.mean`)
or 16-bit engine (`_crank16.mean`), after probing the bit depth
(`find_bitdepth`) for 16-bit input.  The native engines and the prober
are not part of the provided sources, so they are modelled from the
specification (a sliding-window local mean over the structuring
element's in-bounds, mask-passing offsets), kept consistent with the
docstring examples that are part of the source file.
-/

namespace RankMean

/-- Image dtype tag, mirroring the `image.dtype` dispatch in `mean`. -/
inductive DType where
  | u8
  | u16
  | other
deriving DecidableEq

/-- A 2-D grid of natural-number samples (structuring element or mask). -/
structure Grid where
  rows : Nat
  cols : Nat
  px : Nat → Nat → Nat

/-- A 2-D image: a grid together with its dtype tag. -/
structure NImage where
  dtype : DType
  rows : Nat
  cols : Nat
  px : Nat → Nat → Nat

/-- Errors raised by `mean`: `TypeError` for unsupported dtypes,
`ValueError` for 16-bit images deeper than 12 bits, and a configuration
error for an out-of-range structuring-element shift. -/
inductive RankError where
  | typeErr
  | valueErr
  | configErr
deriving DecidableEq

/-- Which native engine the dispatcher invoked, with the histogram
bitdepth parameter for the 16-bit engine. -/
inductive EngineSel where
  | e8
  | e16 (bitdepth : Nat)
deriving DecidableEq

/-- Modelled from the spec: the mask test — an offset pixel contributes
only if the mask value there is nonzero, or the mask is absent. -/
def maskPass (mask : Option Grid) : Nat × Nat → Bool :=
  match mask with
  | none => fun _ => true
  | some m => fun p => m.px p.1 p.2 != 0

/-- Modelled from the spec: translate coordinate `x` by the relative
offset `i - center`; return the target coordinate when it lies inside
`[0, bound)`, and `none` (no contribution) otherwise. -/
def shiftCoord (x center i bound : Nat) : Option Nat :=
  let t : Int := (x : Int) + (i : Int) - (center : Int)
  if 0 ≤ t ∧ t < (bound : Int) then some t.toNat else none

/-- Modelled from the spec: the image cell covered by structuring-element
cell `(i, j)` when the element (with center `(cr, cc)`) is placed at
pixel `(r, c)`; `none` when the cell is 0 or falls out of bounds. -/
def cellAt (rows cols : Nat) (selem : Grid) (cr cc r c i j : Nat) :
    Option (Nat × Nat) :=
  if selem.px i j ≠ 0 then
    match shiftCoord r cr i rows, shiftCoord c cc j cols with
    | some a, some b => some (a, b)
    | _, _ => none
  else none

/-- Modelled from the spec: the list of image coordinates inside the
window of pixel `(r, c)` — the structuring element's 1-cells, kept when
in bounds and passing the mask. -/
def windowCells (rows cols : Nat) (selem : Grid) (sx sy : Nat)
    (mask : Option Grid) (r c : Nat) : List (Nat × Nat) :=
  (((List.range selem.rows).flatMap fun i =>
      (List.range selem.cols).filterMap fun j =>
        cellAt rows cols selem (selem.rows / 2 + sy) (selem.cols / 2 + sx)
          r c i j)).filter (maskPass mask)

/-- Modelled from the spec: the multiset (as a list) of sample values in
the window of pixel `(r, c)`. -/
def windowVals (rows cols : Nat) (px : Nat → Nat → Nat) (selem : Grid)
    (sx sy : Nat) (mask : Option Grid) (r c : Nat) : List Nat :=
  (windowCells rows cols selem sx sy mask r c).map fun p => px p.1 p.2

/-- Modelled from the spec: the engines' per-pixel output — the running
sum divided by the valid count (integer division, matching the source's
docstring examples), and 0 when the valid count is 0. -/
def meanAt (rows cols : Nat) (px : Nat → Nat → Nat) (selem : Grid)
    (sx sy : Nat) (mask : Option Grid) (r c : Nat) : Nat :=
  let vals := windowVals rows cols px selem sx sy mask r c
  if vals.length = 0 then 0 else vals.sum / vals.length

/-- Modelled from the spec: shift validation — an even-sized dimension
admits a shift of 0 or 1, an odd-sized dimension admits no shift. -/
def shiftValid (selem : Grid) (sx sy : Nat) : Bool :=
  decide (sx ≤ 1 - selem.cols % 2) && decide (sy ≤ 1 - selem.rows % 2)

/-- Modelled from the spec: the 8-bit engine `_crank8.mean` — validates
the shift, then computes the local mean at every pixel, cast to the
8-bit output type. -/
def engine8 (img : NImage) (selem : Grid) (sx sy : Nat)
    (mask : Option Grid) : Except RankError Grid :=
  if shiftValid selem sx sy then
    .ok ⟨img.rows, img.cols, fun r c =>
      meanAt img.rows img.cols img.px selem sx sy mask r c % 256⟩
  else .error .configErr

/-- Modelled from the spec: the 16-bit engine `_crank16.mean` — same
computation with a histogram of `2 ^ bitdepth` bins and a 16-bit output
cast. -/
def engine16 (img : NImage) (selem : Grid) (sx sy : Nat)
    (mask : Option Grid) (bitdepth : Nat) : Except RankError Grid :=
  if shiftValid selem sx sy then
    .ok ⟨img.rows, img.cols, fun r c =>
      meanAt img.rows img.cols img.px selem sx sy mask r c % 65536⟩
  else .error .configErr

/-- Maximum sample value over the whole image (0 for an empty image). -/
def maxPx (img : NImage) : Nat :=
  (((List.range img.rows).flatMap fun r =>
      (List.range img.cols).map (img.px r))).foldr max 0

/-- Fuel-indexed floor of the base-2 logarithm: `log2floor fuel n` is
`⌊log₂ n⌋` whenever `n ≤ fuel` (and `n ≥ 1`), else 0 for `n < 2`. -/
def log2floor : Nat → Nat → Nat
  | 0, _ => 0
  | fuel + 1, n => if 2 ≤ n then log2floor fuel (n / 2) + 1 else 0

/-- Modelled from the spec: `find_bitdepth` (imported from
`skimage.rank.generic`, not under the provided sources) — the bit depth
of the image's maximum value, i.e. `⌊log₂ (max)⌋`, consistent with the
source's dispatch (`bitdepth > 11` rejected) and its docstring, which
accepts a 16-bit image whose maximum is 4095. -/
def find_bitdepth (img : NImage) : Nat :=
  log2floor (maxPx img) (maxPx img)

/-- The dispatcher of `rank.py`'s `mean`, parameterized by the bit-depth
prober so that alternative prober contracts can be compared. -/
def meanWithProber (prober : NImage → Nat) (img : NImage) (selem : Grid)
    (mask : Option Grid) (sx sy : Nat) :
    Except RankError (EngineSel × Grid) :=
  match img.dtype with
  | .u8 => (engine8 img selem sx sy mask).map fun g => (.e8, g)
  | .u16 =>
    let bitdepth := prober img
    if bitdepth > 11 then .error .valueErr
    else (engine16 img selem sx sy mask (bitdepth + 1)).map fun g =>
      (.e16 (bitdepth + 1), g)
  | .other => .error .typeErr

/-- The public entry point `mean` of `rank.py`: dispatch on dtype, using
`find_bitdepth` on the 16-bit path. -/
def mean (img : NImage) (selem : Grid) (mask : Option Grid)
    (sx sy : Nat) : Except RankError (EngineSel × Grid) :=
  meanWithProber find_bitdepth img selem mask sx sy

/-- Row-major listing of a grid's samples, for stating concrete outputs. -/
def gridToList (rows cols : Nat) (g : Grid) : List (List Nat) :=
  (List.range rows).map fun r => (List.range cols).map (g.px r)

/-- The 0/1 pattern of the docstring's 5×5 test images. -/
def pat5 : List (List Nat) :=
  [[0, 0, 0, 0, 0],
   [0, 1, 1, 1, 0],
   [0, 1, 1, 1, 0],
   [0, 1, 1, 1, 0],
   [0, 0, 0, 0, 0]]

/-- Sample lookup in a list-of-rows representation, defaulting to 0. -/
def pxOf (l : List (List Nat)) (r c : Nat) : Nat :=
  (l.getD r []).getD c 0

/-- The source docstring's 8-bit test image `ima8 = 255 * pat5`. -/
def img8 : NImage :=
  ⟨.u8, 5, 5, fun r c => 255 * pxOf pat5 r c⟩

/-- The source docstring's 16-bit test image `ima16 = 4095 * pat5`. -/
def img16 : NImage :=
  ⟨.u16, 5, 5, fun r c => 4095 * pxOf pat5 r c⟩

/-- The 3×3 all-ones structuring element `square(3)`. -/
def selem3 : Grid := ⟨3, 3, fun _ _ => 1⟩

/-- A 2×2 all-tens 8-bit image, used to instantiate general theorems. -/
def imgC : NImage := ⟨.u8, 2, 2, fun _ _ => 10⟩

/-- A 1×1 image of unsupported dtype. -/
def imgOther : NImage := ⟨.other, 1, 1, fun _ _ => 0⟩

/-- A 1×2 16-bit image whose first pixel exceeds the 12-bit range. -/
def imgBig : NImage := ⟨.u16, 1, 2, fun _ c => if c = 0 then 5000 else 7⟩

/-- A 1×2 mask that excludes exactly the first pixel. -/
def maskHide : Grid := ⟨1, 2, fun _ c => if c = 0 then 0 else 1⟩

/-- A 1×1 8-bit image with value 7. -/
def img1 : NImage := ⟨.u8, 1, 1, fun _ _ => 7⟩

/-- A 1×1 all-zero mask. -/
def mask0 : Grid := ⟨1, 1, fun _ _ => 0⟩

/-- A 1×1 structuring element whose only cell is its center. -/
def selem1 : Grid := ⟨1, 1, fun _ _ => 1⟩

/-- A 2×2 all-ones structuring element (even-sized sides). -/
def selem2 : Grid := ⟨2, 2, fun _ _ => 1⟩

/-- Modelled from the claim's wording for the prober contract: the
smallest `b` such that every sample of the buffer is below `2 ^ b`. -/
def claimedBitdepth (img : NImage) : Nat :=
  if maxPx img = 0 then 0 else log2floor (maxPx img) (maxPx img) + 1

/-- Round `s / n` to the nearest integer with ties rounded half-up, as
the claim words the 8-bit output rule. -/
def roundHalfUpDiv (s n : Nat) : Nat := (2 * s + n) / (2 * n)

section Helpers

/-- A `filterMap` over `range n` whose function returns `none` except
possibly at `k` collapses to the value at `k`. -/
theorem range_filterMap_single {α : Type} (f : Nat → Option α) (n : Nat) :
    ∀ k, k < n → (∀ j, j < n → j ≠ k → f j = none) →
    (List.range n).filterMap f = (f k).toList := by
  induction n with
  | zero => intro k hk _; omega
  | succ n ih =>
    intro k hk h
    rw [List.range_succ, List.filterMap_append]
    by_cases hkn : k = n
    · have h1 : (List.range n).filterMap f = [] := by
        rw [List.filterMap_eq_nil_iff]
        intro a ha
        have haa := List.mem_range.mp ha
        exact h a (by omega) (by omega)
      rw [h1, hkn]
      cases hf : f n <;> simp [hf]
    · have h1 : (List.range n).filterMap f = (f k).toList :=
        ih k (by omega) (fun j hj hjk => h j (by omega) hjk)
      have h2 : f n = none := h n (by omega) (fun e => hkn e.symm)
      rw [h1]
      simp [h2]

/-- A `flatMap` over `range n` whose function returns `[]` except
possibly at `k` collapses to the list at `k`. -/
theorem range_flatMap_single {α : Type} (f : Nat → List α) (n : Nat) :
    ∀ k, k < n → (∀ i, i < n → i ≠ k → f i = []) →
    (List.range n).flatMap f = f k := by
  induction n with
  | zero => intro k hk _; omega
  | succ n ih =>
    intro k hk h
    rw [List.range_succ, List.flatMap_append]
    by_cases hkn : k = n
    · have h1 : (List.range n).flatMap f = [] := by
        simp only [List.flatMap_eq_nil_iff]
        intro a ha
        have haa := List.mem_range.mp ha
        exact h a (by omega) (by omega)
      rw [hkn]
      simp [h1]
    · have h1 : (List.range n).flatMap f = f k :=
        ih k (by omega) (fun i hi hik => h i (by omega) hik)
      have h2 : f n = [] := h n (by omega) (fun e => hkn e.symm)
      simp [h1, h2]

/-- Every member of a list is at most the list's `foldr max 0`. -/
theorem le_foldr_max (l : List Nat) (a : Nat) (h : a ∈ l) :
    a ≤ l.foldr max 0 := by
  induction l with
  | nil => cases h
  | cons x xs ih =>
    rcases List.mem_cons.mp h with h1 | h1
    · subst h1; exact Nat.le_max_left _ _
    · exact Nat.le_trans (ih h1) (Nat.le_max_right _ _)

/-- Every in-bounds sample is at most the image's maximum. -/
theorem le_maxPx (img : NImage) (r c : Nat) (hr : r < img.rows)
    (hc : c < img.cols) : img.px r c ≤ maxPx img := by
  refine le_foldr_max _ _ ?_
  refine List.mem_flatMap.mpr ⟨r, List.mem_range.mpr hr, ?_⟩
  exact List.mem_map.mpr ⟨c, List.mem_range.mpr hc, rfl⟩

/-- Characterization of `log2floor` with sufficient fuel: it is at most
`b` exactly when the argument is below `2 ^ (b + 1)`. -/
theorem log2floor_le_iff (fuel n b : Nat) (hfuel : n ≤ fuel) :
    log2floor fuel n ≤ b ↔ n < 2 ^ (b + 1) := by
  induction fuel generalizing n b with
  | zero =>
    have hn : n = 0 := by omega
    subst hn
    simp [log2floor]
  | succ fuel ih =>
    by_cases h2 : 2 ≤ n
    · rw [log2floor, if_pos h2]
      cases b with
      | zero =>
        constructor
        · intro h; omega
        · intro h; omega
      | succ b =>
        have hstep : log2floor fuel (n / 2) + 1 ≤ b + 1 ↔
            log2floor fuel (n / 2) ≤ b := by omega
        rw [hstep, ih (n / 2) b (by omega)]
        constructor
        · intro h
          have : n / 2 * 2 + 2 > n := by omega
          calc n < n / 2 * 2 + 2 := this
            _ ≤ 2 ^ (b + 1) * 2 := by
                have : n / 2 + 1 ≤ 2 ^ (b + 1) := h
                omega
            _ = 2 ^ (b + 1 + 1) := by ring
        · intro h
          have hdiv : n / 2 * 2 ≤ n := Nat.div_mul_le_self n 2
          have : 2 ^ (b + 1 + 1) = 2 ^ (b + 1) * 2 := by ring
          omega
    · rw [log2floor, if_neg h2]
      have : 0 < 2 ^ (b + 1) := Nat.pos_pow_of_pos _ (by omega)
      constructor
      · intro _; omega
      · intro _; omega

/-- Characterization of the modelled `find_bitdepth`: it is at most `b`
exactly when the image's maximum is below `2 ^ (b + 1)`. -/
theorem find_bitdepth_le_iff (img : NImage) (b : Nat) :
    find_bitdepth img ≤ b ↔ maxPx img < 2 ^ (b + 1) :=
  log2floor_le_iff _ _ _ (Nat.le_refl _)

/-- Placing the structuring-element cell that sits exactly at the center
on an in-bounds pixel targets that pixel. -/
theorem shiftCoord_center (x cen bound : Nat) (hx : x < bound) :
    shiftCoord x cen cen bound = some x := by
  simp only [shiftCoord]
  rw [if_pos (by omega)]
  congr 1
  omega

/-- A coordinate produced by `shiftCoord` is inside `[0, bound)`. -/
theorem shiftCoord_lt (x cen i bound y : Nat)
    (h : shiftCoord x cen i bound = some y) : y < bound := by
  simp only [shiftCoord] at h
  by_cases hc : 0 ≤ (x : Int) + (i : Int) - (cen : Int) ∧
      (x : Int) + (i : Int) - (cen : Int) < (bound : Int)
  · rw [if_pos hc] at h
    have := Option.some_inj.mp h
    omega
  · rw [if_neg hc] at h
    cases h

/-- A cell produced by `cellAt` is inside the image bounds. -/
theorem cellAt_mem_bounds (rows cols : Nat) (selem : Grid)
    (cr cc r c i j : Nat) (p : Nat × Nat)
    (h : cellAt rows cols selem cr cc r c i j = some p) :
    p.1 < rows ∧ p.2 < cols := by
  unfold cellAt at h
  by_cases hs : selem.px i j ≠ 0
  · rw [if_pos hs] at h
    cases ha : shiftCoord r cr i rows with
    | none => rw [ha] at h; cases h
    | some a =>
      cases hb : shiftCoord c cc j cols with
      | none => rw [ha, hb] at h; cases h
      | some b =>
        rw [ha, hb] at h
        have hp := Option.some_inj.mp h
        subst hp
        exact ⟨shiftCoord_lt _ _ _ _ _ ha, shiftCoord_lt _ _ _ _ _ hb⟩
  · rw [if_neg hs] at h
    cases h

/-- Unfolding of the u16 dispatch branch of `mean`. -/
theorem mean_u16_eq (img : NImage) (selem : Grid) (mask : Option Grid)
    (sx sy : Nat) (hd : img.dtype = .u16) :
    mean img selem mask sx sy =
      if find_bitdepth img > 11 then .error .valueErr
      else (engine16 img selem sx sy mask (find_bitdepth img + 1)).map
        fun g => (.e16 (find_bitdepth img + 1), g) := by
  unfold mean meanWithProber
  rw [hd]

/-- A 16-bit image with an in-bounds sample of 4096 or more makes `mean`
fail with the `ValueError` before any engine runs. -/
theorem mean_u16_overflow (img : NImage) (selem : Grid)
    (mask : Option Grid) (sx sy r c : Nat) (hd : img.dtype = .u16)
    (hr : r < img.rows) (hc : c < img.cols) (hv : 4096 ≤ img.px r c) :
    mean img selem mask sx sy = .error .valueErr := by
  rw [mean_u16_eq img selem mask sx sy hd]
  have hmax : 4096 ≤ maxPx img :=
    Nat.le_trans hv (le_maxPx img r c hr hc)
  have hbd : ¬ find_bitdepth img ≤ 11 := by
    rw [find_bitdepth_le_iff]
    norm_num
    omega
  rw [if_pos (by omega)]

/-- A 16-bit image whose maximum fits in 12 bits reaches the 16-bit
engine with histogram parameter `find_bitdepth + 1`. -/
theorem mean_u16_ok (img : NImage) (selem : Grid) (mask : Option Grid)
    (sx sy : Nat) (hd : img.dtype = .u16) (hmax : maxPx img ≤ 4095) :
    mean img selem mask sx sy =
      (engine16 img selem sx sy mask (find_bitdepth img + 1)).map
        fun g => (.e16 (find_bitdepth img + 1), g) := by
  rw [mean_u16_eq img selem mask sx sy hd]
  have hbd : find_bitdepth img ≤ 11 := by
    rw [find_bitdepth_le_iff]
    norm_num
    omega
  rw [if_neg (by omega)]

/-- The mean at a pixel with a nonempty window is the window's sum
divided by its length. -/
theorem meanAt_of_ne_nil (rows cols : Nat) (px : Nat → Nat → Nat)
    (selem : Grid) (sx sy : Nat) (mask : Option Grid) (r c : Nat)
    (hn : (windowVals rows cols px selem sx sy mask r c).length ≠ 0) :
    meanAt rows cols px selem sx sy mask r c =
      (windowVals rows cols px selem sx sy mask r c).sum /
        (windowVals rows cols px selem sx sy mask r c).length := by
  simp only [meanAt]
  rw [if_neg hn]

/-- The 8-bit engine's per-pixel output, when the shift is valid. -/
theorem engine8_px (img : NImage) (selem : Grid) (sx sy : Nat)
    (mask : Option Grid) (r c : Nat)
    (hv : shiftValid selem sx sy = true) :
    (engine8 img selem sx sy mask).map (fun g => g.px r c) =
      .ok (meanAt img.rows img.cols img.px selem sx sy mask r c % 256) := by
  unfold engine8
  rw [if_pos hv]
  rfl

/-- The 16-bit engine's per-pixel output, when the shift is valid. -/
theorem engine16_px (img : NImage) (selem : Grid) (sx sy : Nat)
    (mask : Option Grid) (bd r c : Nat)
    (hv : shiftValid selem sx sy = true) :
    (engine16 img selem sx sy mask bd).map (fun g => g.px r c) =
      .ok (meanAt img.rows img.cols img.px selem sx sy mask r c % 65536) := by
  unfold engine16
  rw [if_pos hv]
  rfl

/-- The claim-worded prober really is the smallest `b` such that every
sample is below `2 ^ b`. -/
theorem claimedBitdepth_spec (img : NImage) :
    maxPx img < 2 ^ claimedBitdepth img ∧
    ∀ b, maxPx img < 2 ^ b → claimedBitdepth img ≤ b := by
  unfold claimedBitdepth
  by_cases h0 : maxPx img = 0
  · rw [if_pos h0, h0]
    constructor
    · norm_num
    · intro b _
      exact Nat.zero_le b
  · rw [if_neg h0]
    constructor
    · exact (log2floor_le_iff _ _ _ (Nat.le_refl _)).mp (Nat.le_refl _)
    · intro b hb
      cases b with
      | zero =>
        simp at hb
        omega
      | succ b =>
        have := (log2floor_le_iff (maxPx img) (maxPx img) b
          (Nat.le_refl _)).mpr hb
        omega

end Helpers

/-- C1: for the 8-bit image `255 * pat5`, `mean` with the 3×3 all-ones
structuring element, no mask and no shift dispatches to the 8-bit engine
and returns exactly the docstring's 8-bit output array. -/
theorem mean_img8_literal :
    (mean img8 selem3 .none 0 0).map (fun p => (p.1, gridToList 5 5 p.2)) =
      .ok (.e8,
        [[63, 85, 127, 85, 63],
         [85, 113, 170, 113, 85],
         [127, 170, 255, 170, 127],
         [85, 113, 170, 113, 85],
         [63, 85, 127, 85, 63]]) := by
  rfl

/-- C2: dispatch rule of `mean`: a u8 image goes straight to the 8-bit
engine; a u16 image runs the prober and, when the probed depth is at
most 11, reaches the 16-bit engine with histogram parameter
`bitdepth + 1`; any other dtype fails with the type error and reaches
no engine. -/
theorem mean_dispatch (img : NImage) (selem : Grid) (mask : Option Grid)
    (sx sy : Nat) :
    (img.dtype = .u8 →
      mean img selem mask sx sy =
        (engine8 img selem sx sy mask).map fun g => (.e8, g)) ∧
    (img.dtype = .u16 → find_bitdepth img ≤ 11 →
      mean img selem mask sx sy =
        (engine16 img selem sx sy mask (find_bitdepth img + 1)).map
          fun g => (.e16 (find_bitdepth img + 1), g)) ∧
    (img.dtype = .other →
      mean img selem mask sx sy = .error .typeErr) := by
  refine ⟨fun h8 => ?_, fun h16 hbd => ?_, fun ho => ?_⟩
  · unfold mean meanWithProber
    rw [h8]
  · rw [mean_u16_eq img selem mask sx sy h16, if_neg (by omega)]
  · unfold mean meanWithProber
    rw [ho]

/-- Witness for C2 at the source docstring's images and a 1×1 image of
unsupported dtype. -/
theorem mean_dispatch_witness :
    (mean img8 selem3 .none 0 0 =
      (engine8 img8 selem3 0 0 .none).map fun g => (.e8, g)) ∧
    (mean img16 selem3 .none 0 0 =
      (engine16 img16 selem3 0 0 .none (find_bitdepth img16 + 1)).map
        fun g => (.e16 (find_bitdepth img16 + 1), g)) ∧
    mean imgOther selem3 .none 0 0 = .error .typeErr :=
  ⟨(mean_dispatch img8 selem3 .none 0 0).1 rfl,
   (mean_dispatch img16 selem3 .none 0 0).2.1 rfl (by decide),
   (mean_dispatch imgOther selem3 .none 0 0).2.2 rfl⟩

/-- C3 counterexample: under the prober contract as the claim words it
(smallest `b` with every sample `< 2 ^ b`), the dispatcher would reject
the source docstring's accepted 16-bit image of maximum 4095, while the
actual `mean` evaluates it to the docstring's documented output. -/
theorem find_bitdepth_claim_cex :
    meanWithProber claimedBitdepth img16 selem3 .none 0 0 =
      .error .valueErr ∧
    (mean img16 selem3 .none 0 0).map
        (fun p => (p.1, gridToList 5 5 p.2)) =
      .ok (.e16 12,
        [[1023, 1365, 2047, 1365, 1023],
         [1365, 1820, 2730, 1820, 1365],
         [2047, 2730, 4095, 2730, 2047],
         [1365, 1820, 2730, 1820, 1365],
         [1023, 1365, 2047, 1365, 1023]]) := by
  constructor
  · rfl
  · rfl

/-- C3 (amended): the prober returns the smallest `b` such that every
sample is below `2 ^ (b + 1)` (the index of the highest set bit of the
maximum); consequently `mean` accepts every 16-bit image whose maximum
is exactly 4095, reaching the 16-bit engine with histogram parameter
12, while a 16-bit image with any in-bounds value ≥ 4096 fails with the
value error before any output is produced. -/
theorem find_bitdepth_char :
    (∀ img : NImage, maxPx img < 2 ^ (find_bitdepth img + 1) ∧
      ∀ b, maxPx img < 2 ^ (b + 1) → find_bitdepth img ≤ b) ∧
    (∀ (img : NImage) (selem : Grid) (mask : Option Grid) (sx sy : Nat),
      img.dtype = .u16 → maxPx img = 4095 →
      mean img selem mask sx sy =
        (engine16 img selem sx sy mask 12).map fun g => (.e16 12, g)) ∧
    (∀ (img : NImage) (selem : Grid) (mask : Option Grid)
      (sx sy r c : Nat), img.dtype = .u16 → r < img.rows →
      c < img.cols → 4096 ≤ img.px r c →
      mean img selem mask sx sy = .error .valueErr) := by
  refine ⟨fun img => ⟨?_, fun b hb => ?_⟩,
    fun img selem mask sx sy hd hmax => ?_, mean_u16_overflow⟩
  · exact (find_bitdepth_le_iff img (find_bitdepth img)).mp (Nat.le_refl _)
  · exact (find_bitdepth_le_iff img b).mpr hb
  · have h11 : find_bitdepth img ≤ 11 := by
      rw [find_bitdepth_le_iff, hmax]
      norm_num
    have h11' : ¬ find_bitdepth img ≤ 10 := by
      rw [find_bitdepth_le_iff, hmax]
      norm_num
    have hfb : find_bitdepth img = 11 := by omega
    rw [mean_u16_ok img selem mask sx sy hd (Nat.le_of_eq hmax), hfb]

/-- Witness for C3's amended statement at the docstring's 16-bit image
(maximum exactly 4095) and a 16-bit image containing 5000. -/
theorem find_bitdepth_char_witness :
    (maxPx img16 < 2 ^ (find_bitdepth img16 + 1) ∧
      find_bitdepth img16 ≤ 11) ∧
    (mean img16 selem3 .none 0 0 =
      (engine16 img16 selem3 0 0 .none 12).map fun g => (.e16 12, g)) ∧
    mean imgBig selem3 .none 0 0 = .error .valueErr :=
  ⟨⟨(find_bitdepth_char.1 img16).1,
    (find_bitdepth_char.1 img16).2 11 (by decide)⟩,
   find_bitdepth_char.2.1 img16 selem3 .none 0 0 rfl (by decide),
   find_bitdepth_char.2.2 imgBig selem3 .none 0 0 0 0 rfl (by decide)
     (by decide) (by decide)⟩

/-- C4 counterexample: at the source docstring's own 8-bit example, the
corner window holds the samples 0, 0, 0, 255 (sum 255 over 4 valid
pixels); the engine outputs the truncated mean 63, exactly as the
docstring records, but rounding 255/4 = 63.75 to nearest half-up (then
clamping) gives 64, so the claimed rounding rule does not hold. -/
theorem mean8_round_claim_cex :
    (windowVals 5 5 img8.px selem3 0 0 .none 0 0).length ≠ 0 ∧
    (engine8 img8 selem3 0 0 .none).map (fun g => g.px 0 0) = .ok 63 ∧
    min 255 (roundHalfUpDiv
        (windowVals 5 5 img8.px selem3 0 0 .none 0 0).sum
        (windowVals 5 5 img8.px selem3 0 0 .none 0 0).length) = 64 := by
  refine ⟨by decide, rfl, by decide⟩

/-- C4 (amended): for every 8-bit image, structuring element, mask and
pixel with a nonzero valid count (under a valid shift), the 8-bit
engine's output value equals the window's arithmetic mean truncated
(floor division), and that value always lies in [0, 255], so the 8-bit
clamp never acts. -/
theorem mean8_truncated_mean (img : NImage) (selem : Grid) (sx sy : Nat)
    (mask : Option Grid) (r c : Nat)
    (h8 : ∀ a b, img.px a b ≤ 255)
    (hv : shiftValid selem sx sy = true)
    (hn : (windowVals img.rows img.cols img.px selem sx sy mask r
      c).length ≠ 0) :
    (engine8 img selem sx sy mask).map (fun g => g.px r c) =
      .ok ((windowVals img.rows img.cols img.px selem sx sy mask r c).sum /
        (windowVals img.rows img.cols img.px selem sx sy mask r c).length) ∧
    (windowVals img.rows img.cols img.px selem sx sy mask r c).sum /
      (windowVals img.rows img.cols img.px selem sx sy mask r c).length
      ≤ 255 := by
  have hle : (windowVals img.rows img.cols img.px selem sx sy mask r c).sum /
      (windowVals img.rows img.cols img.px selem sx sy mask r c).length
      ≤ 255 := by
    have hbound : ∀ x ∈ windowVals img.rows img.cols img.px selem sx sy
        mask r c, x ≤ 255 := by
      intro x hx
      rcases List.mem_map.mp hx with ⟨p, _, hpx⟩
      exact hpx ▸ h8 p.1 p.2
    have hsum := List.sum_le_card_nsmul _ 255 hbound
    rw [smul_eq_mul] at hsum
    calc (windowVals img.rows img.cols img.px selem sx sy mask r c).sum /
          (windowVals img.rows img.cols img.px selem sx sy mask r c).length
        ≤ (windowVals img.rows img.cols img.px selem sx sy mask r c).length *
            255 /
          (windowVals img.rows img.cols img.px selem sx sy mask r c).length :=
          Nat.div_le_div_right hsum
      _ = 255 := Nat.mul_div_cancel_left 255 (Nat.pos_of_ne_zero hn)
  refine ⟨?_, hle⟩
  rw [engine8_px img selem sx sy mask r c hv,
    meanAt_of_ne_nil img.rows img.cols img.px selem sx sy mask r c hn,
    Nat.mod_eq_of_lt (by omega)]

/-- Witness for C4's amended statement on a constant 2×2 8-bit image. -/
theorem mean8_truncated_mean_witness :
    ((engine8 imgC selem3 0 0 .none).map (fun g => g.px 0 0) =
      .ok ((windowVals imgC.rows imgC.cols imgC.px selem3 0 0 .none 0 0).sum /
        (windowVals imgC.rows imgC.cols imgC.px selem3 0 0 .none 0
          0).length)) ∧
    (windowVals imgC.rows imgC.cols imgC.px selem3 0 0 .none 0 0).sum /
      (windowVals imgC.rows imgC.cols imgC.px selem3 0 0 .none 0 0).length
      ≤ 255 :=
  mean8_truncated_mean imgC selem3 0 0 .none 0 0
    (fun _ _ => (by decide : (10 : Nat) ≤ 255)) (by decide) (by decide)

/-- C10: the 12-bit domain check is computed from the maximum over the
entire image, ignoring the mask and the structuring element: any u16
image with an in-bounds sample ≥ 4096 makes `mean` fail with the value
error for every mask (even one excluding every such pixel) and every
structuring element. -/
theorem domain_check_ignores_mask (img : NImage) (selem : Grid)
    (mask : Option Grid) (sx sy r c : Nat) (hd : img.dtype = .u16)
    (hr : r < img.rows) (hc : c < img.cols) (hv : 4096 ≤ img.px r c) :
    mean img selem mask sx sy = .error .valueErr :=
  mean_u16_overflow img selem mask sx sy r c hd hr hc hv

/-- Witness for C10: a 16-bit image whose only over-range pixel is
excluded by the mask is still rejected. -/
theorem domain_check_ignores_mask_witness :
    mean imgBig selem3 (some maskHide) 0 0 = .error .valueErr :=
  domain_check_ignores_mask imgBig selem3 (some maskHide) 0 0 0 0 rfl
    (by decide) (by decide) (by decide)

/-- C5: out-of-bounds offsets contribute neither to the sum nor to the
valid-count denominator: every window cell lies inside the image
bounds, and on a 5×5 image with the 3×3 all-ones element (no mask, no
shift) each corner pixel's mean is taken over exactly its 4 in-bounds
neighbors — denominator 4, never a zero-padded 9-element mean. -/
theorem window_in_bounds :
    (∀ (rows cols : Nat) (selem : Grid) (sx sy : Nat)
      (mask : Option Grid) (r c : Nat) (p : Nat × Nat),
      p ∈ windowCells rows cols selem sx sy mask r c →
      p.1 < rows ∧ p.2 < cols) ∧
    (∀ px : Nat → Nat → Nat,
      meanAt 5 5 px selem3 0 0 .none 0 0 =
        (px 0 0 + px 0 1 + px 1 0 + px 1 1) / 4 ∧
      meanAt 5 5 px selem3 0 0 .none 0 4 =
        (px 0 3 + px 0 4 + px 1 3 + px 1 4) / 4 ∧
      meanAt 5 5 px selem3 0 0 .none 4 0 =
        (px 3 0 + px 3 1 + px 4 0 + px 4 1) / 4 ∧
      meanAt 5 5 px selem3 0 0 .none 4 4 =
        (px 3 3 + px 3 4 + px 4 3 + px 4 4) / 4) := by
  constructor
  · intro rows cols selem sx sy mask r c p hp
    have hp1 := (List.mem_filter.mp hp).1
    rcases List.mem_flatMap.mp hp1 with ⟨i, _, hi⟩
    rcases List.mem_filterMap.mp hi with ⟨j, _, hj⟩
    exact cellAt_mem_bounds _ _ _ _ _ _ _ _ _ _ hj
  · intro px
    refine ⟨?_, ?_, ?_, ?_⟩
    · show (px 0 0 + (px 0 1 + (px 1 0 + (px 1 1 + 0)))) / 4 =
        (px 0 0 + px 0 1 + px 1 0 + px 1 1) / 4
      exact congrArg (· / 4) (by ring)
    · show (px 0 3 + (px 0 4 + (px 1 3 + (px 1 4 + 0)))) / 4 =
        (px 0 3 + px 0 4 + px 1 3 + px 1 4) / 4
      exact congrArg (· / 4) (by ring)
    · show (px 3 0 + (px 3 1 + (px 4 0 + (px 4 1 + 0)))) / 4 =
        (px 3 0 + px 3 1 + px 4 0 + px 4 1) / 4
      exact congrArg (· / 4) (by ring)
    · show (px 3 3 + (px 3 4 + (px 4 3 + (px 4 4 + 0)))) / 4 =
        (px 3 3 + px 3 4 + px 4 3 + px 4 4) / 4
      exact congrArg (· / 4) (by ring)

/-- Witness for C5's bounds part at a concrete window cell. -/
theorem window_in_bounds_witness :
    (0, 0).1 < 5 ∧ (0, 0).2 < 5 :=
  window_in_bounds.1 5 5 selem3 0 0 .none 0 0 (0, 0) (by decide)

/-- C6: a pixel whose mask value is zero contributes to no window at
all — it is never among the window cells, hence absent from both the
running sum and the valid-count denominator — while with no mask the
mask filter keeps every in-bounds offset. -/
theorem mask_zero_excluded :
    (∀ (rows cols : Nat) (selem : Grid) (sx sy : Nat) (m : Grid)
      (r c a b : Nat), m.px a b = 0 →
      (a, b) ∉ windowCells rows cols selem sx sy (some m) r c) ∧
    (∀ (rows cols : Nat) (selem : Grid) (sx sy : Nat) (r c : Nat),
      windowCells rows cols selem sx sy .none r c =
        (List.range selem.rows).flatMap fun i =>
          (List.range selem.cols).filterMap fun j =>
            cellAt rows cols selem (selem.rows / 2 + sy)
              (selem.cols / 2 + sx) r c i j) := by
  constructor
  · intro rows cols selem sx sy m r c a b h0 hmem
    have hpass := (List.mem_filter.mp hmem).2
    simp [maskPass, h0] at hpass
  · intro rows cols selem sx sy r c
    unfold windowCells
    exact List.filter_true _

/-- Witness for C6 at a concrete mask that zeroes the probed pixel. -/
theorem mask_zero_excluded_witness :
    (0, 0) ∉ windowCells 1 1 selem3 0 0 (some mask0) 0 0 :=
  mask_zero_excluded.1 1 1 selem3 0 0 mask0 0 0 0 0 rfl

/-- C7: a pixel whose neighborhood contains no in-bounds, mask-passing
sample (empty window, valid count 0) gets output value 0: the mean is
defined as 0 there and both engines write 0. -/
theorem empty_window_zero (img : NImage) (selem : Grid) (sx sy : Nat)
    (mask : Option Grid) (r c : Nat)
    (h : windowCells img.rows img.cols selem sx sy mask r c = [])
    (hv : shiftValid selem sx sy = true) :
    meanAt img.rows img.cols img.px selem sx sy mask r c = 0 ∧
    (engine8 img selem sx sy mask).map (fun g => g.px r c) = .ok 0 ∧
    ∀ bd, (engine16 img selem sx sy mask bd).map (fun g => g.px r c) =
      .ok 0 := by
  have hm : meanAt img.rows img.cols img.px selem sx sy mask r c = 0 := by
    simp only [meanAt, windowVals, h]
    simp
  refine ⟨hm, ?_, fun bd => ?_⟩
  · rw [engine8_px img selem sx sy mask r c hv, hm]
  · rw [engine16_px img selem sx sy mask bd r c hv, hm]

/-- Witness for C7: a 3×3 window on a 1×1 image under an all-zero mask
is empty and the output there is 0. -/
theorem empty_window_zero_witness :
    meanAt img1.rows img1.cols img1.px selem3 0 0 (some mask0) 0 0 = 0 ∧
    (engine8 img1 selem3 0 0 (some mask0)).map (fun g => g.px 0 0) =
      .ok 0 ∧
    ∀ bd, (engine16 img1 selem3 0 0 (some mask0) bd).map
      (fun g => g.px 0 0) = .ok 0 :=
  empty_window_zero img1 selem3 0 0 (some mask0) 0 0 (by decide) (by decide)

/-- C9: for an odd×odd structuring element, any nonzero shift is
rejected with the configuration error by both engines; for even-sized
dimensions a shift of 0 or 1 passes validation. -/
theorem shift_validation :
    (∀ (img : NImage) (selem : Grid) (sx sy : Nat) (mask : Option Grid),
      selem.rows % 2 = 1 → selem.cols % 2 = 1 → sx ≠ 0 ∨ sy ≠ 0 →
      engine8 img selem sx sy mask = .error .configErr ∧
      ∀ bd, engine16 img selem sx sy mask bd = .error .configErr) ∧
    (∀ (selem : Grid) (sx sy : Nat), selem.rows % 2 = 0 →
      selem.cols % 2 = 0 → sx ≤ 1 → sy ≤ 1 →
      shiftValid selem sx sy = true) := by
  constructor
  · intro img selem sx sy mask hrodd hcodd hnz
    have hfalse : shiftValid selem sx sy = false := by
      unfold shiftValid
      rw [hrodd, hcodd]
      rcases hnz with h | h
      · have hx : ¬ (sx ≤ 1 - 1) := by omega
        simp only [Bool.and_eq_false_iff, decide_eq_false_iff_not]
        left
        exact hx
      · have hy : ¬ (sy ≤ 1 - 1) := by omega
        simp only [Bool.and_eq_false_iff, decide_eq_false_iff_not]
        right
        exact hy
    exact ⟨by simp [engine8, hfalse], fun bd => by simp [engine16, hfalse]⟩
  · intro selem sx sy hreven hceven hx hy
    unfold shiftValid
    rw [hreven, hceven]
    simp [hx, hy]

/-- Witness for C9: the odd 3×3 element rejects a shift of 1; the even
2×2 element accepts shifts of 1. -/
theorem shift_validation_witness :
    (engine8 imgC selem3 1 0 .none = .error .configErr ∧
      ∀ bd, engine16 imgC selem3 1 0 .none bd = .error .configErr) ∧
    shiftValid selem2 1 1 = true :=
  ⟨shift_validation.1 imgC selem3 1 0 .none rfl rfl (Or.inl (by decide)),
   shift_validation.2 selem2 1 1 rfl rfl (by decide) (by decide)⟩

/-- C8: applying `mean` with a structuring element whose unique 1-cell
sits at the center offset (no mask, no shift) returns every supported
image unchanged: at each in-bounds pixel the output equals the input
sample, on both the 8-bit and the 16-bit path. -/
theorem single_center_identity (img : NImage) (selem : Grid)
    (hr0 : 0 < selem.rows) (hc0 : 0 < selem.cols)
    (hsel : ∀ i j, i < selem.rows → j < selem.cols →
      (selem.px i j ≠ 0 ↔ i = selem.rows / 2 ∧ j = selem.cols / 2))
    (hsupp : (img.dtype = .u8 ∧ ∀ a b, img.px a b ≤ 255) ∨
      (img.dtype = .u16 ∧ maxPx img ≤ 4095))
    (r c : Nat) (hr : r < img.rows) (hc : c < img.cols) :
    (mean img selem .none 0 0).map (fun p => p.2.px r c) =
      .ok (img.px r c) := by
  have hv : shiftValid selem 0 0 = true := by
    simp [shiftValid]
  have hkr : selem.rows / 2 < selem.rows := Nat.div_lt_self hr0 (by omega)
  have hkc : selem.cols / 2 < selem.cols := Nat.div_lt_self hc0 (by omega)
  have hzero : ∀ i, i < selem.rows → i ≠ selem.rows / 2 →
      ((List.range selem.cols).filterMap fun j =>
        cellAt img.rows img.cols selem (selem.rows / 2 + 0)
          (selem.cols / 2 + 0) r c i j) = [] := by
    intro i hi hik
    rw [List.filterMap_eq_nil_iff]
    intro j hj
    have hjc := List.mem_range.mp hj
    have hnz : ¬ selem.px i j ≠ 0 :=
      fun hne => hik ((hsel i j hi hjc).mp hne).1
    unfold cellAt
    rw [if_neg hnz]
  have hrowk : ((List.range selem.cols).filterMap fun j =>
      cellAt img.rows img.cols selem (selem.rows / 2 + 0)
        (selem.cols / 2 + 0) r c (selem.rows / 2) j) =
      (cellAt img.rows img.cols selem (selem.rows / 2 + 0)
        (selem.cols / 2 + 0) r c (selem.rows / 2)
        (selem.cols / 2)).toList := by
    apply range_filterMap_single _ selem.cols (selem.cols / 2) hkc
    intro j hj hjk
    have hnz : ¬ selem.px (selem.rows / 2) j ≠ 0 :=
      fun hne => hjk ((hsel _ j hkr hj).mp hne).2
    unfold cellAt
    rw [if_neg hnz]
  have hcell : cellAt img.rows img.cols selem (selem.rows / 2 + 0)
      (selem.cols / 2 + 0) r c (selem.rows / 2) (selem.cols / 2) =
      some (r, c) := by
    have hnz : selem.px (selem.rows / 2) (selem.cols / 2) ≠ 0 :=
      (hsel _ _ hkr hkc).mpr ⟨rfl, rfl⟩
    unfold cellAt
    rw [if_pos hnz, Nat.add_zero, Nat.add_zero,
      shiftCoord_center r _ img.rows hr, shiftCoord_center c _ img.cols hc]
  have hcells : windowCells img.rows img.cols selem 0 0 .none r c =
      [(r, c)] := by
    unfold windowCells
    rw [range_flatMap_single _ selem.rows (selem.rows / 2) hkr hzero,
      hrowk, hcell]
    rfl
  have hmean : meanAt img.rows img.cols img.px selem 0 0 .none r c =
      img.px r c := by
    simp only [meanAt, windowVals, hcells]
    simp
  rcases hsupp with ⟨hd, h255⟩ | ⟨hd, hmax⟩
  · have h1 : mean img selem .none 0 0 =
        (engine8 img selem 0 0 .none).map fun g => (.e8, g) := by
      unfold mean meanWithProber
      rw [hd]
    rw [h1]
    unfold engine8
    rw [if_pos hv]
    show Except.ok
      (meanAt img.rows img.cols img.px selem 0 0 .none r c % 256) = _
    rw [hmean, Nat.mod_eq_of_lt (by have := h255 r c; omega)]
  · rw [mean_u16_ok img selem .none 0 0 hd hmax]
    unfold engine16
    rw [if_pos hv]
    show Except.ok
      (meanAt img.rows img.cols img.px selem 0 0 .none r c % 65536) = _
    rw [hmean,
      Nat.mod_eq_of_lt (by have := le_maxPx img r c hr hc; omega)]

/-- Witness for C8: the single-center 1×1 element leaves the constant
2×2 8-bit image unchanged at pixel (1, 1). -/
theorem single_center_identity_witness :
    (mean imgC selem1 .none 0 0).map (fun p => p.2.px 1 1) =
      .ok (imgC.px 1 1) :=
  single_center_identity imgC selem1 (by decide) (by decide)
    (fun i j hi hj => by
      have hi' : i < 1 := hi
      have hj' : j < 1 := hj
      constructor
      · intro _
        show i = 0 ∧ j = 0
        omega
      · intro _
        exact (by decide : (1 : Nat) ≠ 0))
    (Or.inl ⟨rfl, fun _ _ => (by decide : (10 : Nat) ≤ 255)⟩)
    1 1 (by decide) (by decide)

end RankMean
